import Mathlib

/-
Verification of the cmpncpy netCDF-comparison tool.

The development shallowly embeds the comparison and work-partitioning
engine of src/cmpnc/cmpnc.py (functions customAssert, work,
compare_umlim_var, parcomp, compare_variables, compare_dimensions,
get_unlim_dimension, compare_attributes, start_compare) and the
masked-array comparison of the legacy script src/cmpnc.py
(compare_variables there, lines 55-72).

Python exceptions are modelled with Except: an uncaught Python exception
is an Except.error value.  The numeric comparison np.allclose applied to
a pair of netCDF variables is modelled abstractly by a per-variable
comparison outcome (CmpOutcome): np.allclose returning True, returning
False (so assert raises AssertionError, which the code catches), or
raising some other exception (ValueError on a shape mismatch, TypeError
on byte/character data), which the code does not catch.  Parallel
dispatch (multiprocessing.Process plus a done Queue) is modelled by
running the per-worker functions sequentially in dispatch order; a
worker whose body raises is modelled by propagating its error to the
result of the run (in the real program the parent blocks forever on the
queue; in both cases no verdict is produced).
-/

namespace Cmpnc

/-! ## Definitions: the shallow embedding -/

inductive Err where
  | assertionError
  | zeroDivision
  | valueError
  | typeErr
  | nameError
  | keyError
  | attributeError
deriving DecidableEq, Repr

inductive CmpOutcome where
  | isTrue
  | isFalse
  | raises (e : Err)

def CmpOutcome.toPass : CmpOutcome → Bool
  | .isTrue => true
  | _ => false

def CmpOutcome.noRaise : CmpOutcome → Bool
  | .raises _ => false
  | _ => true

structure VarPair where
  name : String
  dims : List String
  isText : Bool
  cmpWhole : CmpOutcome
  cmpAt : Nat → CmpOutcome

structure Dim where
  name : String
  len : Nat
  unlimited : Bool
deriving DecidableEq, Repr

structure NcPairModel where
  dims1 : List Dim
  dims2 : List Dim
  attrs1 : List (String × String)
  attrs2 : List (String × String)
  vars : List VarPair
  vars2Names : List String

structure PartResult where
  success : Bool
  failed : List String
  skipped : List String
deriving DecidableEq, Repr

structure CmpResult where
  allOkay : Bool
  failed : List String
  skipped : List String
  npassed : Option Int
deriving DecidableEq, Repr

def customAssert (eq : Bool) (conterr : Bool) : Except Err Nat :=
  if eq then .ok 0
  else if conterr then .ok 1
  else .error .assertionError

def eqAsSets (xs ys : List String) : Bool :=
  xs.all (fun x => ys.contains x) && ys.all (fun y => xs.contains y)

def parcomp : List VarPair → Except Err PartResult
  | [] => .ok ⟨true, [], []⟩
  | v :: rest =>
    if v.isText then
      (parcomp rest).map fun r => ⟨r.success, r.failed, v.name :: r.skipped⟩
    else
      match v.cmpWhole with
      | .isTrue => parcomp rest
      | .isFalse => (parcomp rest).map fun r => ⟨false, v.name :: r.failed, r.skipped⟩
      | .raises e => .error e

def workGo (v : VarPair) : List Nat → Except Err Bool
  | [] => .ok true
  | i :: rest =>
    match v.cmpAt i with
    | .isTrue => workGo v rest
    | .isFalse => (workGo v rest).map fun _ => false
    | .raises e => .error e

def work (v : VarPair) (sti stp : Nat) : Except Err Bool :=
  workGo v (List.range' sti (stp - sti))

def compare_umlim_var (v : VarPair) (ulen nprocs : Nat) : Except Err Bool :=
  if nprocs = 0 then .error .zeroDivision
  else
    ((List.range nprocs).mapM fun i =>
        work v (ulen / nprocs * i)
          (if i < nprocs - 1 then ulen / nprocs * (i + 1) else ulen)).map
      fun rs => rs.all id

def halvePAux (numvars : Nat) : Nat → Nat → Nat
  | 0, nprocs => nprocs
  | fuel + 1, nprocs =>
    if numvars < nprocs then halvePAux numvars fuel (nprocs / 2) else nprocs

def halveP (numvars nprocs : Nat) : Nat :=
  halvePAux numvars nprocs nprocs

def growthAdjustedProcs (numvars nprocsg : Nat) : Nat :=
  if 1 < numvars / nprocsg then nprocsg else halveP numvars nprocsg

def fixedProcs (numvars nprocsg : Nat) : Nat :=
  if nprocsg > numvars then numvars else nprocsg

def fixedParts (numvars nprocsg : Nat) : List (Nat × Nat) :=
  let nprocs := fixedProcs numvars nprocsg
  let ipp := numvars / nprocs
  (List.range nprocs).map fun i =>
    (ipp * i, if i < nprocs - 1 then ipp * (i + 1) else numvars)

def growthParts (numvars nprocsg : Nat) : List (Nat × Nat) :=
  let nprocs := growthAdjustedProcs numvars nprocsg
  let ipp := numvars / nprocs
  (List.range nprocs).map fun i =>
    (ipp * i,
      if i < nprocs - 1 then ipp * (i + 1) else ipp * (i + 1) + numvars % nprocs)

def sliceOf {α : Type} (l : List α) (se : Nat × Nat) : List α :=
  (l.drop se.1).take (se.2 - se.1)

def aggregate (rs : List PartResult) : PartResult :=
  ⟨rs.all (·.success), (rs.map (·.failed)).flatten, (rs.map (·.skipped)).flatten⟩

def growthSerial (varsU : List VarPair) (ulen nprocs : Nat) :
    Except Err (Bool × List String) :=
  match varsU with
  | [] => .ok (true, [])
  | v :: rest =>
    match (if nprocs ≤ ulen then compare_umlim_var v ulen nprocs else work v 0 ulen) with
    | .error e => .error e
    | .ok s =>
      match growthSerial rest ulen nprocs with
      | .error e => .error e
      | .ok br => .ok (s && br.1, if s then br.2 else v.name :: br.2)

def growthStage (varsU : List VarPair) (ulen nprocs nprocsg : Nat) :
    Except Err PartResult :=
  if ulen < nprocs ∧ 4 < varsU.length then
    if nprocsg = 0 then .error .zeroDivision
    else
      ((growthParts varsU.length nprocsg).mapM fun se =>
          parcomp (sliceOf varsU se)).map aggregate
  else
    (growthSerial varsU ulen nprocs).map fun bf => ⟨bf.1, bf.2, []⟩

def classifyU (vars : List VarPair) (unlimdim : String) : List VarPair :=
  vars.filter fun v => v.dims.contains unlimdim

def classifyF (vars : List VarPair) (unlimdim : String) : List VarPair :=
  vars.filter fun v => !(v.dims.contains unlimdim)

def compare_variables (p : NcPairModel) (unlimdim : String) (ulen : Nat)
    (summary conterr : Bool) (nprocsg : Nat) : Except Err CmpResult :=
  match customAssert (p.vars.length == p.vars2Names.length) conterr with
  | .error e => .error e
  | .ok _ =>
    match customAssert (eqAsSets (p.vars.map (·.name)) p.vars2Names) conterr with
    | .error e => .error e
    | .ok _ =>
      if fixedProcs (classifyF p.vars unlimdim).length nprocsg = 0 then
        .error .zeroDivision
      else
        match (fixedParts (classifyF p.vars unlimdim).length nprocsg).mapM
            (fun se => parcomp (sliceOf (classifyF p.vars unlimdim) se)) with
        | .error e => .error e
        | .ok rsF =>
          if unlimdim = "None" then
            if (summary || conterr) = true then .error .nameError
            else .ok ⟨(aggregate rsF).success, (aggregate rsF).failed,
                      (aggregate rsF).skipped, none⟩
          else
            match growthStage (classifyU p.vars unlimdim) ulen
                (fixedProcs (classifyF p.vars unlimdim).length nprocsg) nprocsg with
            | .error e => .error e
            | .ok s2 =>
              .ok ⟨(aggregate rsF).success && s2.success,
                   (aggregate rsF).failed ++ s2.failed,
                   (aggregate rsF).skipped ++ s2.skipped,
                   some ((((classifyF p.vars unlimdim).length : Int) +
                       (classifyU p.vars unlimdim).length) -
                     ((aggregate rsF).failed ++ s2.failed).length -
                     ((aggregate rsF).skipped ++ s2.skipped).length)⟩

def get_unlim_dimension (dims : List Dim) : Option String :=
  dims.foldl (fun acc d => if d.unlimited then some d.name else acc) none

def findDim (dims : List Dim) (n : String) : Option Dim :=
  dims.find? fun d => d.name == n

def resolveGrowth (dims : List Dim) : String × Nat :=
  match get_unlim_dimension dims with
  | some u => (u, ((findDim dims u).map (·.len)).getD 0)
  | none =>
    match findDim dims "time" with
    | some d => ("time", d.len)
    | none => ("None", 0)

def compare_dimensions (dims1 dims2 : List Dim) (conterr : Bool) : Except Err Unit :=
  match customAssert (dims1.length == dims2.length) conterr with
  | .error e => .error e
  | .ok _ =>
    match customAssert (eqAsSets (dims1.map (·.name)) (dims2.map (·.name))) conterr with
    | .error e => .error e
    | .ok _ =>
      (dims1.mapM fun (d : Dim) =>
        (match findDim dims2 d.name with
         | none => .error Err.keyError
         | some d2 => customAssert (d.len == d2.len) conterr : Except Err Nat)).map
        fun _ => ()

def lookupAttr (attrs : List (String × String)) (k : String) : Option String :=
  (attrs.find? fun kv => kv.1 == k).map (·.2)

def compare_attributes (attrs1 attrs2 : List (String × String)) (conterr : Bool) :
    Except Err Unit :=
  match (match customAssert (attrs1.length == attrs2.length) false with
         | .error e => .error e
         | .ok _ =>
           (customAssert (attrs1.map (·.1) == attrs2.map (·.1)) false).map
             fun _ => () : Except Err Unit) with
  | .error .assertionError =>
    if conterr then .ok () else .error .assertionError
  | .error e => .error e
  | .ok _ =>
    (attrs1.mapM fun (kv : String × String) =>
      (match lookupAttr attrs2 kv.1 with
       | none => .error Err.attributeError
       | some v2 => customAssert (kv.2 == v2) conterr : Except Err Nat)).map
      fun _ => ()

structure Config where
  summary : Bool
  conterr : Bool
  nprocs : Nat
  ignoreAttributes : Bool

def start_compare (cfg : Config) (p : NcPairModel) : Except Err CmpResult :=
  match compare_dimensions p.dims1 p.dims2 cfg.conterr with
  | .error e => .error e
  | .ok _ =>
    match (if cfg.ignoreAttributes then .ok ()
           else compare_attributes p.attrs1 p.attrs2 cfg.conterr) with
    | .error e => .error e
    | .ok _ =>
      compare_variables p (resolveGrowth p.dims1).1 (resolveGrowth p.dims1).2
        cfg.summary cfg.conterr cfg.nprocs

inductive ExitStatus where
  | exit0
  | exit1
  | uncaught (e : Err)
deriving DecidableEq, Repr

def runExit (cfg : Config) (p : NcPairModel) : ExitStatus :=
  match start_compare cfg p with
  | .ok r => if r.allOkay then .exit0 else .exit1
  | .error e => .uncaught e

def dimsMismatchB (dims1 dims2 : List Dim) : Bool :=
  (!(dims1.length == dims2.length)) ||
  (!(eqAsSets (dims1.map (·.name)) (dims2.map (·.name)))) ||
  (dims1.any fun d => !(((findDim dims2 d.name).map (·.len)) == some d.len))

def attrsMismatchB (attrs1 attrs2 : List (String × String)) : Bool :=
  (!(attrs1.length == attrs2.length)) ||
  (!(attrs1.map (·.1) == attrs2.map (·.1))) ||
  (attrs1.any fun kv => !(lookupAttr attrs2 kv.1 == some kv.2))

def varsMismatchB (p : NcPairModel) : Bool :=
  (!(p.vars.length == p.vars2Names.length)) ||
  (!(eqAsSets (p.vars.map (·.name)) p.vars2Names))

def structuralMismatch (ignoreAttrs : Bool) (p : NcPairModel) : Bool :=
  dimsMismatchB p.dims1 p.dims2 ||
  (!ignoreAttrs && attrsMismatchB p.attrs1 p.attrs2) ||
  varsMismatchB p

def partBoundary (total k ipp : Nat) (i : Nat) : Nat :=
  if i < k then ipp * i else total

def exVarNum (n : String) (ds : List String) : VarPair :=
  ⟨n, ds, false, .isTrue, fun _ => .isTrue⟩

def exVarText (n : String) (ds : List String) : VarPair :=
  ⟨n, ds, true, .raises .typeErr, fun _ => .raises .typeErr⟩

def exPairC10 : NcPairModel :=
  ⟨[⟨"time", 2, true⟩], [⟨"time", 2, true⟩], [], [],
   [exVarNum "u" ["time"]], ["u"]⟩

def combineR (a b : PartResult) : PartResult :=
  ⟨a.success && b.success, a.failed ++ b.failed, a.skipped ++ b.skipped⟩

def exVarShape : VarPair :=
  ⟨"badshape", ["x"], false, .raises .valueError, fun _ => .raises .valueError⟩

def exVarFail : VarPair := ⟨"x1", ["x"], false, .isFalse, fun _ => .isFalse⟩

def exPairC5 : NcPairModel :=
  ⟨[⟨"time", 2, true⟩, ⟨"x", 1, false⟩], [⟨"time", 2, true⟩, ⟨"x", 1, false⟩],
   [], [], [exVarNum "v" ["x"], exVarText "t" ["time"]], ["v", "t"]⟩

def atol : ℚ := 1 / 100000000

def rtol : ℚ := 1 / 100000

def closeQ (a b : ℚ) : Bool := |a - b| ≤ atol + rtol * |b|

abbrev MArr := List (ℚ × Bool)

def allcloseQ (xs ys : List ℚ) : Except Err Bool :=
  if xs.length = ys.length then
    .ok ((xs.zip ys).all fun ab => closeQ ab.1 ab.2)
  else .error .valueError

def allcloseMasked (a b : MArr) : Except Err Bool :=
  if a.length = b.length then
    .ok ((a.zip b).all fun xy => xy.1.2 || xy.2.2 || closeQ xy.1.1 xy.2.1)
  else .error .valueError

def boolToQ (b : Bool) : ℚ := if b then 1 else 0

def legacy_masked_compare (a b : MArr) : Except Err Bool :=
  match allcloseMasked a b with
  | .error e => .error e
  | .ok true => .ok true
  | .ok false =>
    match allcloseQ (a.map (·.1)) (b.map (·.1)) with
    | .error _ => .ok false
    | .ok false => .ok false
    | .ok true =>
      match allcloseQ (a.map fun vb => boolToQ vb.2) (b.map fun vb => boolToQ vb.2) with
      | .error _ => .ok false
      | .ok false => .ok false
      | .ok true => .ok true

def exMA : MArr := [(0, true), (1, false)]

def exMB : MArr := [(0, false), (1, false)]

def exMC : MArr := [(0, true)]

def exMD : MArr := [(0, false)]

def exPairC6 : NcPairModel :=
  ⟨[⟨"time", 4, true⟩, ⟨"x", 1, false⟩], [⟨"time", 4, true⟩, ⟨"x", 1, false⟩],
   [], [],
   [exVarNum "a" ["x"], exVarNum "b" ["x"],
    exVarText "t" ["time"], exVarNum "n1" ["time"], exVarNum "n2" ["time"],
    exVarNum "n3" ["time"], exVarNum "n4" ["time"]],
   ["a", "b", "t", "n1", "n2", "n3", "n4"]⟩

def exPairC9 : NcPairModel :=
  ⟨[⟨"x", 1, false⟩], [⟨"x", 1, false⟩], [], [], [exVarNum "v" ["x"]], ["v"]⟩

def exPairC9b : NcPairModel :=
  ⟨[⟨"time", 2, true⟩, ⟨"x", 1, false⟩], [⟨"time", 2, true⟩, ⟨"x", 1, false⟩],
   [], [], [exVarNum "v" ["x"], exVarNum "u" ["time"]], ["v", "u"]⟩

def exPairC1 : NcPairModel :=
  ⟨[⟨"time", 2, true⟩, ⟨"x", 1, false⟩], [⟨"time", 2, true⟩, ⟨"x", 1, false⟩],
   [], [], [exVarNum "v" ["x"]], ["v", "w"]⟩

def passAll (v : VarPair) (ulen : Nat) : Bool :=
  decide (∀ i, i < ulen → (v.cmpAt i).toPass = true)

def exPairC8 : NcPairModel :=
  ⟨[⟨"time", 2, true⟩, ⟨"x", 1, false⟩], [⟨"time", 2, true⟩, ⟨"x", 1, false⟩],
   [], [],
   [exVarNum "a" ["x"], exVarNum "b" ["x"], exVarNum "c" ["x"],
    exVarNum "n1" ["time"], exVarNum "n2" ["time"], exVarNum "n3" ["time"],
    exVarNum "n4" ["time"], exVarText "t" ["time"]],
   ["a", "b", "c", "n1", "n2", "n3", "n4", "t"]⟩

/-! ## Theorems -/

theorem b_mono_le (b : Nat → Nat) (k : Nat)
    (mono : ∀ i, i < k → b i ≤ b (i + 1)) :
    ∀ j, j ≤ k → ∀ i, i ≤ j → b i ≤ b j := by
  intro j
  induction j with
  | zero =>
    intro _ i hi
    cases Nat.le_zero.mp hi
    exact Nat.le_refl _
  | succ n ih =>
    intro hk i hi
    rcases Nat.eq_or_lt_of_le hi with h | h
    · cases h; exact Nat.le_refl _
    · exact Nat.le_trans (ih (by omega) i (by omega)) (mono n (by omega))

theorem flatten_sliceOf {α : Type} (b : Nat → Nat) :
    ∀ (k : Nat) (l : List α), b 0 = 0 → b k = l.length →
      (∀ i, i < k → b i ≤ b (i + 1)) →
      ((List.range k).map fun i => sliceOf l (b i, b (i + 1))).flatten = l := by
  intro k
  induction k with
  | zero =>
    intro l h0 hk _
    have : l.length = 0 := by omega
    simp [List.length_eq_zero.mp this]
  | succ n ih =>
    intro l h0 hk mono
    have hble : ∀ j, j ≤ n + 1 → b j ≤ l.length := by
      intro j hj
      rw [← hk]
      exact b_mono_le b (n + 1) mono (n + 1) (Nat.le_refl _) j hj
    have hbn : b n ≤ l.length := hble n (by omega)
    have ihl := ih (l.take (b n)) h0
      (by rw [List.length_take]; omega)
      (fun i hlt => mono i (by omega))
    have hsl : ∀ i, i < n →
        sliceOf (l.take (b n)) (b i, b (i + 1)) = sliceOf l (b i, b (i + 1)) := by
      intro i hi
      have hb1 : b (i + 1) ≤ b n :=
        b_mono_le b (n + 1) mono n (by omega) (i + 1) (by omega)
      simp only [sliceOf, List.drop_take, List.take_take]
      congr 1
      omega
    rw [List.range_succ, List.map_append, List.flatten_append]
    have hmap : ((List.range n).map fun i => sliceOf l (b i, b (i + 1))).flatten
        = l.take (b n) := by
      rw [← ihl]
      congr 1
      apply List.map_congr_left
      intro i hi
      exact (hsl i (List.mem_range.mp hi)).symm
    rw [hmap]
    simp only [List.map_cons, List.map_nil, List.flatten_cons, List.flatten_nil,
      List.append_nil]
    have : sliceOf l (b n, b (n + 1)) = l.drop (b n) := by
      simp only [sliceOf]
      apply List.take_of_length_le
      rw [List.length_drop]
      omega
    rw [this, List.take_append_drop]

theorem halvePAux_spec (numvars : Nat) :
    ∀ fuel nprocs, 1 ≤ numvars → 1 ≤ nprocs → nprocs ≤ fuel →
      1 ≤ halvePAux numvars fuel nprocs ∧ halvePAux numvars fuel nprocs ≤ numvars := by
  intro fuel
  induction fuel with
  | zero => intro nprocs _ h1 h2; omega
  | succ f ih =>
    intro nprocs hnv h1 hle
    by_cases h : numvars < nprocs
    · rw [halvePAux, if_pos h]
      exact ih (nprocs / 2) hnv (by omega) (by omega)
    · rw [halvePAux, if_neg h]
      omega

theorem halveP_spec (numvars nprocs : Nat) (hnv : 1 ≤ numvars) (hp : 1 ≤ nprocs) :
    1 ≤ halveP numvars nprocs ∧ halveP numvars nprocs ≤ numvars :=
  halvePAux_spec numvars nprocs nprocs hnv hp (Nat.le_refl _)

theorem growthAdjustedProcs_spec (numvars nprocsg : Nat)
    (hnv : 1 ≤ numvars) (hp : 1 ≤ nprocsg) :
    1 ≤ growthAdjustedProcs numvars nprocsg ∧
      growthAdjustedProcs numvars nprocsg ≤ numvars := by
  rw [growthAdjustedProcs]
  by_cases h : 1 < numvars / nprocsg
  · rw [if_pos h]
    have hle : nprocsg ≤ numvars := (Nat.one_le_div_iff (by omega)).mp (by omega)
    omega
  · rw [if_neg h]
    exact halveP_spec numvars nprocsg hnv hp

theorem fixedParts_eq_boundary (count P : Nat) (hc : 1 ≤ count) (hP : 1 ≤ P) :
    fixedParts count P =
      (List.range (fixedProcs count P)).map fun i =>
        (partBoundary count (fixedProcs count P) (count / fixedProcs count P) i,
         partBoundary count (fixedProcs count P) (count / fixedProcs count P) (i + 1)) := by
  apply List.map_congr_left
  intro i hi
  have hik : i < fixedProcs count P := List.mem_range.mp hi
  simp only [partBoundary]
  rw [if_pos hik]
  by_cases h : i + 1 < fixedProcs count P
  · rw [if_pos h, if_pos (show i < fixedProcs count P - 1 by omega)]
  · rw [if_neg h, if_neg (show ¬ i < fixedProcs count P - 1 by omega)]

theorem growthParts_eq_boundary (count P : Nat) (hc : 1 ≤ count) (hP : 1 ≤ P) :
    growthParts count P =
      (List.range (growthAdjustedProcs count P)).map fun i =>
        (partBoundary count (growthAdjustedProcs count P)
           (count / growthAdjustedProcs count P) i,
         partBoundary count (growthAdjustedProcs count P)
           (count / growthAdjustedProcs count P) (i + 1)) := by
  apply List.map_congr_left
  intro i hi
  have hik : i < growthAdjustedProcs count P := List.mem_range.mp hi
  simp only [partBoundary]
  rw [if_pos hik]
  by_cases h : i + 1 < growthAdjustedProcs count P
  · rw [if_pos h, if_pos (show i < growthAdjustedProcs count P - 1 by omega)]
  · rw [if_neg h, if_neg (show ¬ i < growthAdjustedProcs count P - 1 by omega)]
    have hi1 : i + 1 = growthAdjustedProcs count P := by omega
    rw [hi1]
    have hmod := Nat.div_add_mod count (growthAdjustedProcs count P)
    rw [Nat.mul_comm] at hmod
    rw [hmod]

theorem partBoundary_zero (total k ipp : Nat) (hk : 1 ≤ k) :
    partBoundary total k ipp 0 = 0 := by
  unfold partBoundary
  rw [if_pos (by omega)]
  omega

theorem partBoundary_last (total k ipp : Nat) :
    partBoundary total k ipp k = total := by
  unfold partBoundary
  rw [if_neg (by omega)]

theorem partBoundary_mono (total k : Nat) (hkc : k ≤ total) (hk : 1 ≤ k) :
    ∀ i, i < k → partBoundary total k (total / k) i ≤ partBoundary total k (total / k) (i + 1) := by
  intro i hi
  have hmul : total / k * k ≤ total := by
    have := Nat.div_mul_le_self total k
    omega
  unfold partBoundary
  rw [if_pos hi]
  by_cases h : i + 1 < k
  · rw [if_pos h]
    exact Nat.mul_le_mul_left _ (by omega)
  · rw [if_neg h]
    have h1 : total / k * i ≤ total / k * (i + 1) := Nat.mul_le_mul_left _ (by omega)
    have h2 : total / k * (i + 1) ≤ total / k * k := Nat.mul_le_mul_left _ (by omega)
    omega

theorem partBoundary_le_total (total k : Nat) (hkc : k ≤ total) :
    ∀ i, partBoundary total k (total / k) i ≤ total := by
  intro i
  unfold partBoundary
  split
  · calc total / k * i ≤ total / k * k := Nat.mul_le_mul_left _ (by omega)
      _ ≤ total := by have := Nat.div_mul_le_self total k; omega
  · omega

theorem partBoundary_nonempty (total k : Nat) (hkc : k ≤ total) (hk : 1 ≤ k) :
    ∀ i, i < k → partBoundary total k (total / k) i < partBoundary total k (total / k) (i + 1) := by
  intro i hi
  have hipp : 1 ≤ total / k := (Nat.one_le_div_iff (by omega)).mpr hkc
  have hmul : total / k * k ≤ total := by
    have := Nat.div_mul_le_self total k
    omega
  unfold partBoundary
  rw [if_pos hi]
  by_cases h : i + 1 < k
  · rw [if_pos h]
    have : total / k * i + total / k = total / k * (i + 1) := by ring
    omega
  · rw [if_neg h]
    have hik : i + 1 = k := by omega
    have : total / k * i + total / k = total / k * (i + 1) := by ring
    have h2 : total / k * (i + 1) = total / k * k := by rw [hik]
    omega

theorem fixedProcs_pos (count P : Nat) (hc : 1 ≤ count) (hP : 1 ≤ P) :
    1 ≤ fixedProcs count P ∧ fixedProcs count P ≤ count := by
  unfold fixedProcs; split <;> omega

theorem C2_partition (count P : Nat) (hc : 1 ≤ count) (hP : 1 ≤ P) :
    (((fixedParts count P).map fun se => sliceOf (List.range count) se).flatten
        = List.range count)
    ∧ (∀ se ∈ fixedParts count P, se.1 < se.2)
    ∧ List.Chain' (fun a b => a.2 = b.1) (fixedParts count P)
    ∧ List.Pairwise (fun a b => a.2 ≤ b.1) (fixedParts count P)
    ∧ (count < P → (fixedParts count P).length = count) := by
  obtain ⟨hk1, hkc⟩ := fixedProcs_pos count P hc hP
  set k := fixedProcs count P with hkdef
  have heq := fixedParts_eq_boundary count P hc hP
  have hmono := partBoundary_mono count k hkc hk1
  refine ⟨?_, ?_, ?_, ?_, ?_⟩
  · rw [heq, List.map_map]
    have h0 := partBoundary_zero count k (count / k) hk1
    have hlast := partBoundary_last count k (count / k)
    exact flatten_sliceOf _ k (List.range count) h0
      (by rw [hlast, List.length_range]) hmono
  · intro se hse
    rw [heq] at hse
    obtain ⟨i, hi, hval⟩ := List.mem_map.mp hse
    have hik := List.mem_range.mp hi
    rw [← hval]
    exact partBoundary_nonempty count k hkc hk1 i hik
  · rw [heq, List.chain'_map]
    rw [List.chain'_iff_get]
    intro i hlen
    simp only [List.get_eq_getElem, List.getElem_range]
  · rw [heq, List.pairwise_map]
    have hpw := List.pairwise_lt_range k
    apply List.Pairwise.imp_of_mem ?_ hpw
    intro i j hi hj hij
    have hjk : j < k := List.mem_range.mp hj
    exact b_mono_le _ k hmono j (by omega) (i + 1) (by omega)
  · intro hlt
    rw [heq, List.length_map, List.length_range]
    unfold fixedProcs
    rw [if_pos (by omega)]

theorem C2_witness :
    ((((fixedParts 3 8).map fun se => sliceOf (List.range 3) se).flatten
        = List.range 3)
    ∧ (∀ se ∈ fixedParts 3 8, se.1 < se.2)
    ∧ List.Chain' (fun a b => a.2 = b.1) (fixedParts 3 8)
    ∧ List.Pairwise (fun a b => a.2 ≤ b.1) (fixedParts 3 8)
    ∧ (3 < 8 → (fixedParts 3 8).length = 3)) :=
  C2_partition 3 8 (by decide) (by decide)

theorem customAssert_conterr_ok (b : Bool) :
    customAssert b true = .ok (if b then 0 else 1) := by
  unfold customAssert
  split <;> simp

theorem customAssert_isOk (b conterr : Bool)
    (h : conterr = true ∨ b = true) : ∃ n, customAssert b conterr = .ok n := by
  unfold customAssert
  rcases h with h | h
  · subst h
    split
    · exact ⟨0, rfl⟩
    · exact ⟨1, rfl⟩
  · subst h
    exact ⟨0, by simp⟩

theorem start_compare_ok {cfg : Config} {p : NcPairModel} {r : CmpResult}
    (h : start_compare cfg p = .ok r) :
    compare_variables p (resolveGrowth p.dims1).1 (resolveGrowth p.dims1).2
      cfg.summary cfg.conterr cfg.nprocs = .ok r := by
  unfold start_compare at h
  cases hd : compare_dimensions p.dims1 p.dims2 cfg.conterr with
  | error e => rw [hd] at h; simp at h
  | ok u =>
    rw [hd] at h
    cases ha : (if cfg.ignoreAttributes then Except.ok ()
                else compare_attributes p.attrs1 p.attrs2 cfg.conterr) with
    | error e => rw [ha] at h; simp at h
    | ok u2 => rw [ha] at h; exact h

theorem C10_empty_fixed :
    (∀ (p : NcPairModel) (unlimdim : String) (ulen : Nat)
        (summary conterr : Bool) (nprocsg : Nat),
        classifyF p.vars unlimdim = [] →
        (conterr = true ∨
          ((p.vars.length == p.vars2Names.length) = true ∧
           eqAsSets (p.vars.map (·.name)) p.vars2Names = true)) →
        compare_variables p unlimdim ulen summary conterr nprocsg =
          .error .zeroDivision)
    ∧ (∀ (cfg : Config) (p : NcPairModel) (r : CmpResult),
        start_compare cfg p = .ok r →
        classifyF p.vars (resolveGrowth p.dims1).1 ≠ []) := by
  have hzero : ∀ n, fixedProcs 0 n = 0 := by
    intro n
    unfold fixedProcs
    split <;> omega
  constructor
  · intro p unlimdim ulen summary conterr nprocsg hempty hok
    obtain ⟨n1, e1⟩ := customAssert_isOk (p.vars.length == p.vars2Names.length) conterr
      (by rcases hok with h | ⟨h1, _⟩; exact Or.inl h; exact Or.inr h1)
    obtain ⟨n2, e2⟩ := customAssert_isOk (eqAsSets (p.vars.map (·.name)) p.vars2Names)
      conterr (by rcases hok with h | ⟨_, h2⟩; exact Or.inl h; exact Or.inr h2)
    unfold compare_variables
    rw [e1, e2, hempty]
    simp [hzero]
  · intro cfg p r h heq
    have hcv := start_compare_ok h
    unfold compare_variables at hcv
    cases e1 : customAssert (p.vars.length == p.vars2Names.length) cfg.conterr with
    | error e => rw [e1] at hcv; simp at hcv
    | ok n1 =>
      rw [e1] at hcv
      cases e2 : customAssert (eqAsSets (p.vars.map (·.name)) p.vars2Names)
          cfg.conterr with
      | error e => rw [e2] at hcv; simp at hcv
      | ok n2 =>
        rw [e2, heq] at hcv
        simp [hzero] at hcv

theorem C10_witness :
    compare_variables exPairC10 "time" 2 false true 2 = .error .zeroDivision :=
  C10_empty_fixed.1 exPairC10 "time" 2 false true 2 rfl (Or.inl rfl)

theorem parcomp_ok_spec (l : List VarPair)
    (h : ∀ v ∈ l, v.isText = true ∨ v.cmpWhole.noRaise = true) :
    parcomp l = .ok
      ⟨l.all fun v => v.isText || v.cmpWhole.toPass,
       (l.filter fun v => !v.isText && !v.cmpWhole.toPass).map (·.name),
       (l.filter (·.isText)).map (·.name)⟩ := by
  induction l with
  | nil => rfl
  | cons v rest ih =>
    have hv := h v (List.mem_cons_self v rest)
    have hrest := ih fun w hw => h w (List.mem_cons_of_mem v hw)
    by_cases ht : v.isText
    · simp [parcomp, ht, hrest, Except.map]
    · have hb : v.isText = false := by simpa using ht
      cases hcw : v.cmpWhole with
      | isTrue =>
        simp [parcomp, hb, hcw, hrest, CmpOutcome.toPass, Except.map]
      | isFalse =>
        simp [parcomp, hb, hcw, hrest, CmpOutcome.toPass, Except.map]
      | raises e =>
        rw [hb, hcw] at hv
        simp [CmpOutcome.noRaise] at hv

theorem parcomp_ok_noRaise (l : List VarPair) (r : PartResult)
    (h : parcomp l = .ok r) :
    ∀ v ∈ l, v.isText = true ∨ v.cmpWhole.noRaise = true := by
  induction l generalizing r with
  | nil => intro v hv; simp at hv
  | cons v rest ih =>
    intro w hw
    by_cases ht : v.isText
    · rw [parcomp, if_pos ht] at h
      cases hr : parcomp rest with
      | error e => rw [hr] at h; simp [Except.map] at h
      | ok r0 =>
        rcases List.mem_cons.mp hw with hd | htl
        · subst hd; exact Or.inl ht
        · exact ih r0 hr w htl
    · cases hcw : v.cmpWhole with
      | isTrue =>
        rw [parcomp, if_neg ht, hcw] at h
        rcases List.mem_cons.mp hw with hd | htl
        · subst hd; rw [hcw]; exact Or.inr rfl
        · exact ih r h w htl
      | isFalse =>
        rw [parcomp, if_neg ht, hcw] at h
        cases hr : parcomp rest with
        | error e => rw [hr] at h; simp [Except.map] at h
        | ok r0 =>
          rcases List.mem_cons.mp hw with hd | htl
          · subst hd; rw [hcw]; exact Or.inr rfl
          · exact ih r0 hr w htl
      | raises e =>
        rw [parcomp, if_neg ht, hcw] at h
        simp at h

theorem parcomp_ok_inv (l : List VarPair) (r : PartResult)
    (h : parcomp l = .ok r) :
    (r.success = true ↔ r.failed = []) ∧
      r.skipped = (l.filter (·.isText)).map (·.name) ∧
      ∀ n ∈ r.failed, n ∈ (l.filter fun v => !v.isText).map (·.name) := by
  have hspec := parcomp_ok_spec l (parcomp_ok_noRaise l r h)
  rw [h] at hspec
  injection hspec with hr
  subst hr
  refine ⟨?_, rfl, ?_⟩
  · simp only [List.all_eq_true, List.map_eq_nil_iff, List.filter_eq_nil_iff]
    constructor
    · intro H v hv
      have := H v hv
      revert this
      cases v.isText <;> cases v.cmpWhole.toPass <;> simp
    · intro H v hv
      have := H v hv
      revert this
      cases v.isText <;> cases v.cmpWhole.toPass <;> simp
  · intro n hn
    rw [List.mem_map] at hn ⊢
    obtain ⟨v, hv, hname⟩ := hn
    rw [List.mem_filter] at hv
    refine ⟨v, ?_, hname⟩
    rw [List.mem_filter]
    refine ⟨hv.1, ?_⟩
    have := hv.2
    revert this
    cases v.isText <;> cases v.cmpWhole.toPass <;> simp

theorem parcomp_append (l1 l2 : List VarPair) :
    parcomp (l1 ++ l2) =
      (parcomp l1).bind fun r1 => (parcomp l2).map fun r2 => combineR r1 r2 := by
  induction l1 with
  | nil =>
    cases h2 : parcomp l2 with
    | error e => simp [parcomp, Except.bind, Except.map, h2]
    | ok r2 => simp [parcomp, Except.bind, Except.map, h2, combineR]
  | cons v rest ih =>
    rw [List.cons_append]
    by_cases ht : v.isText
    · rw [parcomp, if_pos ht, parcomp, if_pos ht, ih]
      cases h1 : parcomp rest with
      | error e => simp [Except.bind, Except.map]
      | ok r1 =>
        cases h2 : parcomp l2 with
        | error e => simp [Except.bind, Except.map]
        | ok r2 => simp [Except.bind, Except.map, combineR]
    · cases hcw : v.cmpWhole with
      | isTrue =>
        rw [parcomp, if_neg ht, hcw, parcomp, if_neg ht, hcw, ih]
      | isFalse =>
        rw [parcomp, if_neg ht, hcw, parcomp, if_neg ht, hcw, ih]
        cases h1 : parcomp rest with
        | error e => simp [Except.bind, Except.map]
        | ok r1 =>
          cases h2 : parcomp l2 with
          | error e => simp [Except.bind, Except.map]
          | ok r2 => simp [Except.bind, Except.map, combineR]
      | raises e =>
        rw [parcomp, if_neg ht, hcw, parcomp, if_neg ht, hcw]
        simp [Except.bind]

theorem workGo_spec (v : VarPair) (idxs : List Nat)
    (h : ∀ i ∈ idxs, (v.cmpAt i).noRaise = true) :
    workGo v idxs = .ok (idxs.all fun i => (v.cmpAt i).toPass) := by
  induction idxs with
  | nil => rfl
  | cons i rest ih =>
    have hi : (v.cmpAt i).noRaise = true := h i (List.mem_cons_self i rest)
    have hrest := ih fun j hj => h j (List.mem_cons_of_mem i hj)
    cases hc : v.cmpAt i with
    | isTrue => simp [workGo, hc, hrest, CmpOutcome.toPass, Except.map]
    | isFalse => simp [workGo, hc, hrest, CmpOutcome.toPass, Except.map]
    | raises e => rw [hc] at hi; simp [CmpOutcome.noRaise] at hi

theorem workGo_isText_irrelevant (n : String) (d : List String)
    (b1 b2 : Bool) (w : CmpOutcome) (f : Nat → CmpOutcome) (idxs : List Nat) :
    workGo ⟨n, d, b1, w, f⟩ idxs = workGo ⟨n, d, b2, w, f⟩ idxs := by
  induction idxs with
  | nil => rfl
  | cons i rest ih =>
    cases hfi : f i <;> simp [workGo, hfi, ih]

theorem C3_counterexample : parcomp [exVarShape] = .error .valueError := rfl

theorem C3_worker (l : List VarPair)
    (h : ∀ v ∈ l, v.isText = true ∨ v.cmpWhole.noRaise = true) :
    parcomp l = .ok
      ⟨l.all fun v => v.isText || v.cmpWhole.toPass,
       (l.filter fun v => !v.isText && !v.cmpWhole.toPass).map (·.name),
       (l.filter (·.isText)).map (·.name)⟩ :=
  parcomp_ok_spec l h

theorem C3_witness :
    parcomp [exVarFail] = .ok
      ⟨[exVarFail].all fun v => v.isText || v.cmpWhole.toPass,
       ([exVarFail].filter fun v => !v.isText && !v.cmpWhole.toPass).map (·.name),
       ([exVarFail].filter (·.isText)).map (·.name)⟩ :=
  C3_worker [exVarFail] (by
    intro v hv
    rw [List.mem_singleton] at hv
    subst hv
    exact Or.inr rfl)

theorem C5_counterexample :
    (exVarText "t" ["time"]).isText = true ∧
      start_compare ⟨false, false, 1, false⟩ exPairC5 = .error .typeErr :=
  ⟨rfl, rfl⟩

theorem C5_skip :
    (∀ (l : List VarPair) (r : PartResult), parcomp l = .ok r →
        r.skipped = (l.filter (·.isText)).map (·.name) ∧
        ∀ n ∈ r.failed, n ∈ (l.filter fun v => !v.isText).map (·.name))
    ∧ (∀ (n : String) (d : List String) (w : CmpOutcome) (f : Nat → CmpOutcome)
        (sti stp : Nat),
        work ⟨n, d, true, w, f⟩ sti stp = work ⟨n, d, false, w, f⟩ sti stp) := by
  constructor
  · intro l r h
    obtain ⟨_, h2, h3⟩ := parcomp_ok_inv l r h
    exact ⟨h2, h3⟩
  · intro n d w f sti stp
    unfold work
    exact workGo_isText_irrelevant n d true false w f _

theorem C5_witness :
    ((⟨true, [], ["t"]⟩ : PartResult).skipped =
        (([exVarText "t" []].filter (·.isText)).map (·.name)) ∧
      ∀ n ∈ (⟨true, [], ["t"]⟩ : PartResult).failed,
        n ∈ (([exVarText "t" []].filter fun v => !v.isText).map (·.name))) :=
  C5_skip.1 [exVarText "t" []] ⟨true, [], ["t"]⟩ rfl

theorem closeQ_self (a : ℚ) : closeQ a a = true := by
  unfold closeQ
  simp only [sub_self, abs_zero, decide_eq_true_eq]
  unfold atol rtol
  positivity

theorem C4_counterexample :
    legacy_masked_compare exMA exMB = .ok true ∧
      exMA.map (·.1) = exMB.map (·.1) ∧
      exMA.map (·.2) ≠ exMB.map (·.2) := by
  refine ⟨?_, rfl, by decide⟩
  unfold legacy_masked_compare allcloseMasked
  simp [exMA, exMB, closeQ_self]

theorem C4_masked (a b : MArr) (hlen : a.length = b.length)
    (hdata : ((a.zip b).all fun xy => closeQ xy.1.1 xy.2.1) = true) :
    legacy_masked_compare a b = .ok true := by
  unfold legacy_masked_compare allcloseMasked
  rw [if_pos hlen]
  have hall : ((a.zip b).all fun xy => xy.1.2 || xy.2.2 || closeQ xy.1.1 xy.2.1) = true := by
    rw [List.all_eq_true] at hdata ⊢
    intro xy hxy
    have := hdata xy hxy
    simp [this]
  rw [hall]

theorem C4_witness : legacy_masked_compare exMC exMD = .ok true :=
  C4_masked exMC exMD rfl (by simp [exMC, exMD, closeQ_self])

theorem C6_counterexample :
    (resolveGrowth exPairC6.dims1).2 = 4 ∧ (4 : Nat) < 8 ∧
      (classifyU exPairC6.vars "time").length = 5 ∧
      fixedProcs (classifyF exPairC6.vars "time").length 8 = 2 ∧
      ¬ ((4 : Nat) < fixedProcs (classifyF exPairC6.vars "time").length 8) ∧
      start_compare ⟨false, false, 8, false⟩ exPairC6 = .error .typeErr :=
  ⟨rfl, by decide, rfl, rfl, by decide, rfl⟩

theorem C6_growth_partition (numvars nprocsg : Nat)
    (h4 : 4 < numvars) (hp : 1 ≤ nprocsg) :
    1 ≤ numvars / growthAdjustedProcs numvars nprocsg
    ∧ (∀ se ∈ growthParts numvars nprocsg, se.1 < se.2)
    ∧ ∀ (l : List VarPair), l.length = numvars →
        ((growthParts numvars nprocsg).map fun se => sliceOf l se).flatten = l := by
  have hc : 1 ≤ numvars := by omega
  obtain ⟨hk1, hkc⟩ := growthAdjustedProcs_spec numvars nprocsg hc hp
  set k := growthAdjustedProcs numvars nprocsg with hkdef
  have heq := growthParts_eq_boundary numvars nprocsg hc hp
  have hmono := partBoundary_mono numvars k hkc hk1
  refine ⟨(Nat.one_le_div_iff (by omega)).mpr hkc, ?_, ?_⟩
  · intro se hse
    rw [heq] at hse
    obtain ⟨i, hi, hval⟩ := List.mem_map.mp hse
    have hik := List.mem_range.mp hi
    rw [← hval]
    exact partBoundary_nonempty numvars k hkc hk1 i hik
  · intro l hl
    rw [heq, List.map_map]
    have h0 := partBoundary_zero numvars k (numvars / k) hk1
    have hlast := partBoundary_last numvars k (numvars / k)
    exact flatten_sliceOf _ k l h0 (by rw [hlast, hl]) hmono

theorem C6_witness :
    (1 ≤ 5 / growthAdjustedProcs 5 8
    ∧ (∀ se ∈ growthParts 5 8, se.1 < se.2)
    ∧ ∀ (l : List VarPair), l.length = 5 →
        ((growthParts 5 8).map fun se => sliceOf l se).flatten = l) :=
  C6_growth_partition 5 8 (by decide) (by decide)

theorem get_unlim_aux_none (dims : List Dim) :
    ∀ acc : Option String, (∀ d ∈ dims, d.unlimited = false) →
      dims.foldl (fun a d => if d.unlimited then some d.name else a) acc = acc := by
  induction dims with
  | nil => intro acc _; rfl
  | cons d rest ih =>
    intro acc h
    rw [List.foldl_cons]
    have hd : d.unlimited = false := h d (List.mem_cons_self d rest)
    rw [if_neg (by simp [hd])]
    exact ih acc fun d' hd' => h d' (List.mem_cons_of_mem _ hd')

theorem get_unlim_aux_some (dims : List Dim) :
    ∀ (acc : Option String) (n : String),
      dims.foldl (fun a d => if d.unlimited then some d.name else a) acc = some n →
      (∃ d ∈ dims, d.unlimited = true ∧ d.name = n) ∨ acc = some n := by
  induction dims with
  | nil => intro acc n h; exact Or.inr h
  | cons d rest ih =>
    intro acc n h
    rw [List.foldl_cons] at h
    rcases ih _ n h with ⟨d', hd', hu, hn⟩ | hacc
    · exact Or.inl ⟨d', List.mem_cons_of_mem _ hd', hu, hn⟩
    · by_cases hu : d.unlimited
      · rw [if_pos hu] at hacc
        injection hacc with hacc
        exact Or.inl ⟨d, List.mem_cons_self d rest, by simp [hu], hacc⟩
      · rw [if_neg hu] at hacc
        exact Or.inr hacc

theorem get_unlim_aux_stable (dims : List Dim) :
    ∀ (m : String),
      ∃ n, dims.foldl (fun a d => if d.unlimited then some d.name else a)
        (some m) = some n := by
  induction dims with
  | nil => intro m; exact ⟨m, rfl⟩
  | cons d rest ih =>
    intro m
    rw [List.foldl_cons]
    by_cases hu : d.unlimited
    · rw [if_pos hu]; exact ih d.name
    · rw [if_neg hu]; exact ih m

theorem get_unlim_aux_isSome (dims : List Dim) :
    ∀ acc : Option String, (∃ d ∈ dims, d.unlimited = true) →
      ∃ n, dims.foldl (fun a d => if d.unlimited then some d.name else a) acc
        = some n := by
  induction dims with
  | nil => intro acc ⟨d, hd, _⟩; simp at hd
  | cons d rest ih =>
    intro acc ⟨d', hd', hu'⟩
    rw [List.foldl_cons]
    rcases List.mem_cons.mp hd' with hh | ht
    · subst hh
      rw [if_pos (by simp [hu'])]
      exact get_unlim_aux_stable rest d'.name
    · exact ih _ ⟨d', ht, hu'⟩

theorem C7_counterexample :
    resolveGrowth [⟨"None", 3, false⟩] = ("None", 0) ∧
      (classifyU [exVarNum "v" ["None"]] "None").map (·.name) = ["v"] :=
  ⟨rfl, rfl⟩

theorem C7_resolution (dims : List Dim) (vars : List VarPair) :
    ((∃ d ∈ dims, d.unlimited = true) →
        ∃ d ∈ dims, d.unlimited = true ∧ (resolveGrowth dims).1 = d.name)
    ∧ ((∀ d ∈ dims, d.unlimited = false) →
        ∀ d0, findDim dims "time" = some d0 → resolveGrowth dims = ("time", d0.len))
    ∧ ((∀ d ∈ dims, d.unlimited = false) → findDim dims "time" = none →
        resolveGrowth dims = ("None", 0) ∧
          ((∀ v ∈ vars, v.dims.contains "None" = false) →
            classifyU vars "None" = [])) := by
  refine ⟨?_, ?_, ?_⟩
  · intro hex
    obtain ⟨n, hn⟩ := get_unlim_aux_isSome dims none hex
    rcases get_unlim_aux_some dims none n hn with ⟨d, hd, hu, hname⟩ | habs
    · refine ⟨d, hd, hu, ?_⟩
      unfold resolveGrowth
      rw [show get_unlim_dimension dims = some n from hn]
      rw [hname]
    · simp at habs
  · intro hnone d0 hfind
    have hn : get_unlim_dimension dims = none := get_unlim_aux_none dims none hnone
    unfold resolveGrowth
    rw [hn, hfind]
  · intro hnone hfind
    have hn : get_unlim_dimension dims = none := get_unlim_aux_none dims none hnone
    constructor
    · unfold resolveGrowth
      rw [hn, hfind]
    · intro hv
      unfold classifyU
      rw [List.filter_eq_nil_iff]
      intro v hvv
      simpa using hv v hvv

theorem C7_witness : resolveGrowth [⟨"time", 7, false⟩] = ("time", 7) :=
  (C7_resolution [⟨"time", 7, false⟩] []).2.1
    (by
      intro d hd
      rw [List.mem_singleton] at hd
      subst hd
      rfl)
    ⟨"time", 7, false⟩ rfl

theorem C9_counterexample :
    start_compare ⟨false, true, 1, false⟩ exPairC9 = .error .nameError := rfl

theorem C9_summary (cfg : Config) (p : NcPairModel) (r : CmpResult)
    (hc : cfg.conterr = true) (h : start_compare cfg p = .ok r) :
    (∃ n, r.npassed = some n) ∧ (resolveGrowth p.dims1).1 ≠ "None" := by
  have hcv := start_compare_ok h
  unfold compare_variables at hcv
  simp only [hc, Bool.or_true] at hcv
  split at hcv
  · simp at hcv
  · split at hcv
    · simp at hcv
    · split at hcv
      · simp at hcv
      · split at hcv
        · simp at hcv
        · split at hcv
          · simp at hcv
          · next hu =>
            split at hcv
            · simp at hcv
            · injection hcv with hr
              subst hr
              exact ⟨⟨_, rfl⟩, hu⟩

theorem C9_witness :
    (∃ n, (⟨true, [], [], some 2⟩ : CmpResult).npassed = some n) ∧
      (resolveGrowth exPairC9b.dims1).1 ≠ "None" :=
  C9_summary ⟨false, true, 1, false⟩ exPairC9b ⟨true, [], [], some 2⟩ rfl rfl

theorem mapM_cons_except {α β : Type} (f : α → Except Err β) (x : α) (l : List α) :
    (x :: l).mapM f = (f x).bind fun y => (l.mapM f).map fun ys => y :: ys := by
  rw [List.mapM_cons]
  cases h : f x <;> cases h2 : l.mapM f <;>
    simp [Except.bind, Except.map, h, h2] <;> rfl

theorem mapM_ok_forall_mem {α β : Type} (f : α → Except Err β) :
    ∀ (l : List α) (ys : List β), l.mapM f = .ok ys → ∀ y ∈ ys, ∃ x ∈ l, f x = .ok y := by
  intro l
  induction l with
  | nil =>
    intro ys h y hy
    rw [List.mapM_nil] at h
    injection h with h
    subst h
    simp at hy
  | cons a t ih =>
    intro ys h y hy
    rw [mapM_cons_except] at h
    cases ha : f a with
    | error e => rw [ha] at h; simp [Except.bind] at h
    | ok b =>
      rw [ha] at h
      cases ht : t.mapM f with
      | error e => rw [ht] at h; simp [Except.bind, Except.map] at h
      | ok bs =>
        rw [ht] at h
        simp only [Except.bind, Except.map] at h
        injection h with h
        subst h
        rcases List.mem_cons.mp hy with hy | hy
        · exact ⟨a, List.mem_cons_self a t, by rw [ha, hy]⟩
        · obtain ⟨x, hx, hfx⟩ := ih bs ht y hy
          exact ⟨x, List.mem_cons_of_mem a hx, hfx⟩

theorem mapM_eq_ok_map {α β : Type} (f : α → Except Err β) (g : α → β) :
    ∀ l : List α, (∀ x ∈ l, f x = .ok (g x)) → l.mapM f = .ok (l.map g) := by
  intro l
  induction l with
  | nil => intro _; rw [List.mapM_nil]; rfl
  | cons a t ih =>
    intro h
    rw [mapM_cons_except, h a (List.mem_cons_self a t),
      ih fun x hx => h x (List.mem_cons_of_mem a hx)]
    rfl

theorem mapM_isErr_of_mem {α β : Type} (f : α → Except Err β) :
    ∀ l : List α, (∃ x ∈ l, ∃ e, f x = .error e) → ∃ e, l.mapM f = .error e := by
  intro l
  induction l with
  | nil => intro ⟨x, hx, _⟩; simp at hx
  | cons a t ih =>
    intro ⟨x, hx, e, hfe⟩
    cases ha : f a with
    | error e0 => exact ⟨e0, by rw [mapM_cons_except, ha]; rfl⟩
    | ok b =>
      have hxt : x ∈ t := by
        rcases List.mem_cons.mp hx with hh | hh
        · subst hh; rw [ha] at hfe; simp at hfe
        · exact hh
      obtain ⟨e1, he1⟩ := ih ⟨x, hxt, e, hfe⟩
      exact ⟨e1, by rw [mapM_cons_except, ha, he1]; rfl⟩

theorem mapM_ok_of_forall_ok {α β : Type} (f : α → Except Err β) :
    ∀ l : List α, (∀ x ∈ l, ∃ y, f x = .ok y) → ∃ ys, l.mapM f = .ok ys := by
  intro l
  induction l with
  | nil => intro _; exact ⟨[], by rw [List.mapM_nil]; rfl⟩
  | cons a t ih =>
    intro h
    obtain ⟨b, hb⟩ := h a (List.mem_cons_self a t)
    obtain ⟨bs, hbs⟩ := ih fun x hx => h x (List.mem_cons_of_mem a hx)
    exact ⟨b :: bs, by rw [mapM_cons_except, hb, hbs]; rfl⟩

theorem growthSerial_inv (ulen nprocs : Nat) :
    ∀ (varsU : List VarPair) (bf : Bool × List String),
      growthSerial varsU ulen nprocs = .ok bf → (bf.1 = true ↔ bf.2 = []) := by
  intro varsU
  induction varsU with
  | nil =>
    intro bf h
    rw [growthSerial] at h
    injection h with h
    subst h
    simp
  | cons v rest ih =>
    intro bf h
    rw [growthSerial] at h
    cases hw : (if nprocs ≤ ulen then compare_umlim_var v ulen nprocs
                else work v 0 ulen) with
    | error e => rw [hw] at h; simp at h
    | ok s =>
      rw [hw] at h
      cases hr : growthSerial rest ulen nprocs with
      | error e => rw [hr] at h; simp at h
      | ok br =>
        rw [hr] at h
        injection h with h
        subst h
        have hih := ih br hr
        cases s <;> simp [hih]

theorem aggregate_inv (rs : List PartResult)
    (h : ∀ r ∈ rs, r.success = true ↔ r.failed = []) :
    ((aggregate rs).success = true ↔ (aggregate rs).failed = []) := by
  unfold aggregate
  simp only [List.all_eq_true, List.flatten_eq_nil_iff]
  constructor
  · intro H l hl
    rw [List.mem_map] at hl
    obtain ⟨r, hr, hrl⟩ := hl
    rw [← hrl]
    exact (h r hr).mp (H r hr)
  · intro H r hr
    exact (h r hr).mpr (H r.failed (List.mem_map.mpr ⟨r, hr, rfl⟩))

theorem growthStage_inv (varsU : List VarPair) (ulen nprocs nprocsg : Nat)
    (s2 : PartResult) (h : growthStage varsU ulen nprocs nprocsg = .ok s2) :
    s2.success = true ↔ s2.failed = [] := by
  unfold growthStage at h
  split at h
  · split at h
    · simp at h
    · cases hm : (growthParts varsU.length nprocsg).mapM
          (fun se => parcomp (sliceOf varsU se)) with
      | error e => rw [hm] at h; simp [Except.map] at h
      | ok rs =>
        rw [hm] at h
        simp only [Except.map] at h
        injection h with h
        subst h
        apply aggregate_inv
        intro r hr
        obtain ⟨se, _, hok⟩ := mapM_ok_forall_mem _ _ rs hm r hr
        exact (parcomp_ok_inv _ r hok).1
  · cases hg : growthSerial varsU ulen nprocs with
    | error e => rw [hg] at h; simp [Except.map] at h
    | ok bf =>
      rw [hg] at h
      simp only [Except.map] at h
      injection h with h
      subst h
      exact growthSerial_inv ulen nprocs varsU bf hg

theorem compare_variables_inv (p : NcPairModel) (unlimdim : String) (ulen : Nat)
    (summary conterr : Bool) (nprocsg : Nat) (r : CmpResult)
    (h : compare_variables p unlimdim ulen summary conterr nprocsg = .ok r) :
    r.allOkay = true ↔ r.failed = [] := by
  unfold compare_variables at h
  split at h
  · simp at h
  · split at h
    · simp at h
    · split at h
      · simp at h
      · split at h
        · simp at h
        · next rsF hm =>
          have hs1 : (aggregate rsF).success = true ↔ (aggregate rsF).failed = [] := by
            apply aggregate_inv
            intro r0 hr0
            obtain ⟨se, _, hok⟩ := mapM_ok_forall_mem _ _ rsF hm r0 hr0
            exact (parcomp_ok_inv _ r0 hok).1
          split at h
          · split at h
            · simp at h
            · injection h with h
              subst h
              exact hs1
          · split at h
            · simp at h
            · next s2 hg =>
              have hs2 := growthStage_inv _ _ _ _ s2 hg
              injection h with h
              subst h
              show (_ && _) = true ↔ _ ++ _ = []
              rw [Bool.and_eq_true, List.append_eq_nil]
              exact and_congr hs1 hs2

theorem customAssert_true_ok (b conterr : Bool) (hb : b = true) :
    customAssert b conterr = .ok 0 := by
  rw [hb]; rfl

theorem customAssert_strict_err (b : Bool) (hb : b = false) :
    customAssert b false = .error .assertionError := by
  rw [hb]; rfl

theorem orE {a b : Bool} (h : (a || b) = true) : a = true ∨ b = true := by
  simpa using h

theorem orI {a b : Bool} (h : a = true ∨ b = true) : (a || b) = true := by
  rcases h with h | h <;> simp [h]

theorem compare_dimensions_err (dims1 dims2 : List Dim)
    (h : dimsMismatchB dims1 dims2 = true) :
    ∃ e, compare_dimensions dims1 dims2 false = .error e := by
  unfold dimsMismatchB at h
  unfold compare_dimensions
  by_cases h1 : (dims1.length == dims2.length) = true
  · rw [customAssert_true_ok _ false h1]
    by_cases h2 : eqAsSets (dims1.map (·.name)) (dims2.map (·.name)) = true
    · rw [customAssert_true_ok _ false h2]
      have h3 : (dims1.any fun d =>
          !(((findDim dims2 d.name).map (·.len)) == some d.len)) = true := by
        rcases orE h with hx | hx
        · rcases orE hx with hy | hy
          · rw [h1] at hy; simp at hy
          · rw [h2] at hy; simp at hy
        · exact hx
      obtain ⟨d, hd, hdp⟩ := List.any_eq_true.mp h3
      have hel : ∃ e, (fun (d : Dim) =>
          (match findDim dims2 d.name with
           | none => .error Err.keyError
           | some d2 => customAssert (d.len == d2.len) false : Except Err Nat)) d
            = .error e := by
        cases hf : findDim dims2 d.name with
        | none =>
          refine ⟨Err.keyError, ?_⟩
          show (match findDim dims2 d.name with
                | none => .error Err.keyError
                | some d2 => customAssert (d.len == d2.len) false : Except Err Nat)
              = _
          rw [hf]
        | some d2 =>
          rw [hf] at hdp
          refine ⟨Err.assertionError, ?_⟩
          have hne : (d.len == d2.len) = false := by
            simp at hdp
            simp only [beq_eq_false_iff_ne]
            exact fun hh => hdp hh.symm
          show (match findDim dims2 d.name with
                | none => .error Err.keyError
                | some d2 => customAssert (d.len == d2.len) false : Except Err Nat)
              = _
          rw [hf]
          exact customAssert_strict_err _ hne
      obtain ⟨e, he⟩ := mapM_isErr_of_mem
        (fun (d : Dim) =>
          (match findDim dims2 d.name with
           | none => .error Err.keyError
           | some d2 => customAssert (d.len == d2.len) false : Except Err Nat))
        dims1 ⟨d, hd, hel⟩
      exact ⟨e, by rw [he]; rfl⟩
    · have h2f : eqAsSets (dims1.map (·.name)) (dims2.map (·.name)) = false := by
        simpa using h2
      rw [customAssert_strict_err _ h2f]
      exact ⟨.assertionError, rfl⟩
  · have h1f : (dims1.length == dims2.length) = false := by simpa using h1
    rw [customAssert_strict_err _ h1f]
    exact ⟨.assertionError, rfl⟩

theorem compare_dimensions_ok (dims1 dims2 : List Dim) (conterr : Bool)
    (h1 : (dims1.length == dims2.length) = true)
    (h2 : eqAsSets (dims1.map (·.name)) (dims2.map (·.name)) = true)
    (h3 : ∀ d ∈ dims1, (((findDim dims2 d.name).map (·.len)) == some d.len) = true) :
    compare_dimensions dims1 dims2 conterr = .ok () := by
  unfold compare_dimensions
  rw [customAssert_true_ok _ conterr h1, customAssert_true_ok _ conterr h2]
  have hmap := mapM_eq_ok_map
    (fun (d : Dim) =>
      (match findDim dims2 d.name with
       | none => .error Err.keyError
       | some d2 => customAssert (d.len == d2.len) conterr : Except Err Nat))
    (fun _ => 0) dims1 ?_
  · rw [hmap]; rfl
  · intro d hd
    have h := h3 d hd
    cases hf : findDim dims2 d.name with
    | none => rw [hf] at h; simp at h
    | some d2 =>
      rw [hf] at h
      simp at h
      show (match findDim dims2 d.name with
            | none => .error Err.keyError
            | some d2 => customAssert (d.len == d2.len) conterr : Except Err Nat)
          = _
      rw [hf]
      exact customAssert_true_ok _ conterr (by simp [h])

theorem compare_attributes_err (attrs1 attrs2 : List (String × String))
    (h : attrsMismatchB attrs1 attrs2 = true) :
    ∃ e, compare_attributes attrs1 attrs2 false = .error e := by
  unfold attrsMismatchB at h
  unfold compare_attributes
  by_cases h1 : (attrs1.length == attrs2.length) = true
  · rw [customAssert_true_ok _ false h1]
    by_cases h2 : (attrs1.map (·.1) == attrs2.map (·.1)) = true
    · rw [customAssert_true_ok _ false h2]
      have h3 : (attrs1.any fun kv => !(lookupAttr attrs2 kv.1 == some kv.2)) = true := by
        rcases orE h with hx | hx
        · rcases orE hx with hy | hy
          · rw [h1] at hy; simp at hy
          · rw [h2] at hy; simp at hy
        · exact hx
      obtain ⟨kv, hkv, hkvp⟩ := List.any_eq_true.mp h3
      have hel : ∃ e, (fun (kv : String × String) =>
          (match lookupAttr attrs2 kv.1 with
           | none => .error Err.attributeError
           | some v2 => customAssert (kv.2 == v2) false : Except Err Nat)) kv
            = .error e := by
        cases hf : lookupAttr attrs2 kv.1 with
        | none =>
          refine ⟨Err.attributeError, ?_⟩
          show (match lookupAttr attrs2 kv.1 with
                | none => .error Err.attributeError
                | some v2 => customAssert (kv.2 == v2) false : Except Err Nat)
              = _
          rw [hf]
        | some v2 =>
          rw [hf] at hkvp
          refine ⟨Err.assertionError, ?_⟩
          have hne : (kv.2 == v2) = false := by
            simp at hkvp
            simp only [beq_eq_false_iff_ne]
            exact fun hh => hkvp hh.symm
          show (match lookupAttr attrs2 kv.1 with
                | none => .error Err.attributeError
                | some v2 => customAssert (kv.2 == v2) false : Except Err Nat)
              = _
          rw [hf]
          exact customAssert_strict_err _ hne
      obtain ⟨e, he⟩ := mapM_isErr_of_mem
        (fun (kv : String × String) =>
          (match lookupAttr attrs2 kv.1 with
           | none => .error Err.attributeError
           | some v2 => customAssert (kv.2 == v2) false : Except Err Nat))
        attrs1 ⟨kv, hkv, hel⟩
      exact ⟨e, by rw [he]; rfl⟩
    · have h2f : (attrs1.map (·.1) == attrs2.map (·.1)) = false := by simpa using h2
      rw [customAssert_strict_err _ h2f]
      exact ⟨.assertionError, rfl⟩
  · have h1f : (attrs1.length == attrs2.length) = false := by simpa using h1
    rw [customAssert_strict_err _ h1f]
    exact ⟨.assertionError, rfl⟩

theorem compare_attributes_ok (attrs1 attrs2 : List (String × String)) (conterr : Bool)
    (h1 : (attrs1.length == attrs2.length) = true)
    (h2 : (attrs1.map (·.1) == attrs2.map (·.1)) = true)
    (h3 : ∀ kv ∈ attrs1, (lookupAttr attrs2 kv.1 == some kv.2) = true) :
    compare_attributes attrs1 attrs2 conterr = .ok () := by
  unfold compare_attributes
  rw [customAssert_true_ok _ false h1, customAssert_true_ok _ false h2]
  have hmap := mapM_eq_ok_map
    (fun (kv : String × String) =>
      (match lookupAttr attrs2 kv.1 with
       | none => .error Err.attributeError
       | some v2 => customAssert (kv.2 == v2) conterr : Except Err Nat))
    (fun _ => 0) attrs1 ?_
  · rw [hmap]; rfl
  · intro kv hkv
    have h := h3 kv hkv
    cases hf : lookupAttr attrs2 kv.1 with
    | none => rw [hf] at h; simp at h
    | some v2 =>
      rw [hf] at h
      simp at h
      show (match lookupAttr attrs2 kv.1 with
            | none => .error Err.attributeError
            | some v2 => customAssert (kv.2 == v2) conterr : Except Err Nat)
          = _
      rw [hf]
      exact customAssert_true_ok _ conterr (by simp [h])

theorem compare_variables_err_vars (p : NcPairModel) (u : String) (ulen : Nat)
    (summary : Bool) (nprocsg : Nat)
    (h : varsMismatchB p = true) :
    ∃ e, compare_variables p u ulen summary false nprocsg = .error e := by
  unfold varsMismatchB at h
  unfold compare_variables
  by_cases h1 : (p.vars.length == p.vars2Names.length) = true
  · have h2 : eqAsSets (p.vars.map (·.name)) p.vars2Names = false := by
      rcases orE h with hx | hx
      · rw [h1] at hx; simp at hx
      · simpa using hx
    rw [customAssert_true_ok _ false h1, customAssert_strict_err _ h2]
    exact ⟨.assertionError, rfl⟩
  · have h1f : (p.vars.length == p.vars2Names.length) = false := by simpa using h1
    rw [customAssert_strict_err _ h1f]
    exact ⟨.assertionError, rfl⟩

theorem compare_dimensions_ok' (dims1 dims2 : List Dim) (conterr : Bool)
    (h : dimsMismatchB dims1 dims2 = false) :
    compare_dimensions dims1 dims2 conterr = .ok () := by
  unfold dimsMismatchB at h
  rw [Bool.or_eq_false_iff, Bool.or_eq_false_iff] at h
  apply compare_dimensions_ok
  · simpa using h.1.1
  · simpa using h.1.2
  · intro d hd
    have hx := List.any_eq_false.mp h.2 d hd
    simpa using hx

theorem compare_attributes_ok' (attrs1 attrs2 : List (String × String))
    (conterr : Bool) (h : attrsMismatchB attrs1 attrs2 = false) :
    compare_attributes attrs1 attrs2 conterr = .ok () := by
  unfold attrsMismatchB at h
  rw [Bool.or_eq_false_iff, Bool.or_eq_false_iff] at h
  apply compare_attributes_ok
  · simpa using h.1.1
  · simpa using h.1.2
  · intro kv hkv
    have hx := List.any_eq_false.mp h.2 kv hkv
    simpa using hx

theorem C1_counterexample :
    structuralMismatch false exPairC1 = true ∧
      runExit ⟨false, true, 1, false⟩ exPairC1 = .exit0 :=
  ⟨rfl, rfl⟩

theorem C1_verdict (cfg : Config) (p : NcPairModel) :
    (runExit cfg p = .exit1 ↔ ∃ r, start_compare cfg p = .ok r ∧ r.failed ≠ [])
    ∧ (cfg.conterr = false → structuralMismatch cfg.ignoreAttributes p = true →
        ∃ e, start_compare cfg p = .error e) := by
  constructor
  · unfold runExit
    cases hs : start_compare cfg p with
    | error e => simp
    | ok r =>
      have hinv := compare_variables_inv p _ _ _ _ _ r (start_compare_ok hs)
      constructor
      · intro hx
        have hx' : (if r.allOkay = true then ExitStatus.exit0 else ExitStatus.exit1)
            = ExitStatus.exit1 := hx
        by_cases hok : r.allOkay = true
        · rw [if_pos hok] at hx'; simp at hx'
        · refine ⟨r, rfl, ?_⟩
          intro hfail
          exact hok (hinv.mpr hfail)
      · rintro ⟨r', hr', hfail⟩
        injection hr' with hr'
        subst hr'
        show (if r.allOkay = true then ExitStatus.exit0 else ExitStatus.exit1)
            = ExitStatus.exit1
        rw [if_neg fun hok => hfail (hinv.mp hok)]
  · intro hstrict hsm
    unfold structuralMismatch at hsm
    by_cases hdm : dimsMismatchB p.dims1 p.dims2 = true
    · obtain ⟨e, he⟩ := compare_dimensions_err _ _ hdm
      refine ⟨e, ?_⟩
      unfold start_compare
      rw [hstrict, he]
    · have hdf : dimsMismatchB p.dims1 p.dims2 = false := by simpa using hdm
      have hdok := compare_dimensions_ok' p.dims1 p.dims2 false hdf
      have hrest : ((!cfg.ignoreAttributes && attrsMismatchB p.attrs1 p.attrs2) = true)
          ∨ varsMismatchB p = true := by
        rcases orE hsm with hx | hx
        · rcases orE hx with hy | hy
          · exact absurd hy hdm
          · exact Or.inl hy
        · exact Or.inr hx
      rcases hrest with hat | hvars
      · rw [Bool.and_eq_true] at hat
        have hiaf : cfg.ignoreAttributes = false := by simpa using hat.1
        obtain ⟨e, he⟩ := compare_attributes_err _ _ hat.2
        refine ⟨e, ?_⟩
        unfold start_compare
        rw [hstrict, hdok, hiaf, he]
        rfl
      · by_cases hia : cfg.ignoreAttributes = true
        · obtain ⟨e, he⟩ := compare_variables_err_vars p (resolveGrowth p.dims1).1
            (resolveGrowth p.dims1).2 cfg.summary cfg.nprocs hvars
          refine ⟨e, ?_⟩
          unfold start_compare
          rw [hstrict, hdok, hia, he]
          rfl
        · have hiaf : cfg.ignoreAttributes = false := by simpa using hia
          by_cases hab : attrsMismatchB p.attrs1 p.attrs2 = true
          · obtain ⟨e, he⟩ := compare_attributes_err _ _ hab
            refine ⟨e, ?_⟩
            unfold start_compare
            rw [hstrict, hdok, hiaf, he]
            rfl
          · have haok := compare_attributes_ok' p.attrs1 p.attrs2 false
              (by simpa using hab)
            obtain ⟨e, he⟩ := compare_variables_err_vars p (resolveGrowth p.dims1).1
              (resolveGrowth p.dims1).2 cfg.summary cfg.nprocs hvars
            refine ⟨e, ?_⟩
            unfold start_compare
            rw [hstrict, hdok, hiaf, haok, he]
            rfl

theorem C1_witness :
    ∃ e, start_compare ⟨false, false, 1, false⟩ exPairC1 = .error e :=
  (C1_verdict ⟨false, false, 1, false⟩ exPairC1).2 rfl rfl

theorem aggregate_cons (r : PartResult) (rs : List PartResult) :
    aggregate (r :: rs) = combineR r (aggregate rs) := by
  unfold aggregate combineR
  simp

theorem mapM_comp {α β γ : Type} (g : α → β) (f : β → Except Err γ) (l : List α) :
    (l.map g).mapM f = l.mapM fun x => f (g x) := by
  induction l with
  | nil => rfl
  | cons a t ih => rw [List.map_cons, mapM_cons_except, mapM_cons_except, ih]

theorem all_congr {α : Type} (l : List α) (p q : α → Bool)
    (h : ∀ x ∈ l, p x = q x) : l.all p = l.all q := by
  induction l with
  | nil => rfl
  | cons a t ih =>
    rw [List.all_cons, List.all_cons, h a (List.mem_cons_self a t),
      ih fun x hx => h x (List.mem_cons_of_mem a hx)]

theorem all_map' {α β : Type} (f : α → β) (p : β → Bool) (l : List α) :
    (l.map f).all p = l.all fun x => p (f x) := by
  induction l with
  | nil => rfl
  | cons a t ih => rw [List.map_cons, List.all_cons, List.all_cons, ih]

theorem mapM_parcomp_flatten (parts : List (List VarPair)) :
    (parts.mapM parcomp).map aggregate = parcomp parts.flatten := by
  induction parts with
  | nil => rfl
  | cons hd tl ih =>
    rw [List.flatten_cons, parcomp_append, mapM_cons_except, ← ih]
    cases h1 : parcomp hd with
    | error e => simp [Except.bind, Except.map]
    | ok r1 =>
      cases h2 : tl.mapM parcomp with
      | error e => simp [Except.bind, Except.map]
      | ok rs => simp [Except.bind, Except.map, aggregate_cons]

theorem fixedStage_eq (varsF : List VarPair) (P : Nat)
    (hn : 1 ≤ varsF.length) (hP : 1 ≤ P) :
    ((fixedParts varsF.length P).mapM fun se => parcomp (sliceOf varsF se)).map
      aggregate = parcomp varsF := by
  rw [show (fixedParts varsF.length P).mapM (fun se => parcomp (sliceOf varsF se))
      = ((fixedParts varsF.length P).map (sliceOf varsF)).mapM parcomp from
    (mapM_comp (sliceOf varsF) parcomp _).symm]
  rw [mapM_parcomp_flatten]
  congr 1
  obtain ⟨hk1, hkc⟩ := fixedProcs_pos varsF.length P hn hP
  rw [fixedParts_eq_boundary varsF.length P hn hP, List.map_map]
  exact flatten_sliceOf _ _ varsF (partBoundary_zero _ _ _ hk1)
    (by rw [partBoundary_last]) (partBoundary_mono _ _ hkc hk1)

theorem growthA_eq (varsU : List VarPair) (P : Nat)
    (hn : 1 ≤ varsU.length) (hP : 1 ≤ P) :
    ((growthParts varsU.length P).mapM fun se => parcomp (sliceOf varsU se)).map
      aggregate = parcomp varsU := by
  rw [show (growthParts varsU.length P).mapM (fun se => parcomp (sliceOf varsU se))
      = ((growthParts varsU.length P).map (sliceOf varsU)).mapM parcomp from
    (mapM_comp (sliceOf varsU) parcomp _).symm]
  rw [mapM_parcomp_flatten]
  congr 1
  obtain ⟨hk1, hkc⟩ := growthAdjustedProcs_spec varsU.length P hn hP
  rw [growthParts_eq_boundary varsU.length P hn hP, List.map_map]
  exact flatten_sliceOf _ _ varsU (partBoundary_zero _ _ _ hk1)
    (by rw [partBoundary_last]) (partBoundary_mono _ _ hkc hk1)

theorem exists_bucket (b : Nat → Nat) :
    ∀ (k j : Nat), b 0 ≤ j → j < b k → ∃ i, i < k ∧ b i ≤ j ∧ j < b (i + 1) := by
  intro k
  induction k with
  | zero => intro j h0 hk; omega
  | succ n ih =>
    intro j h0 hk
    by_cases hb : b n ≤ j
    · exact ⟨n, by omega, hb, hk⟩
    · obtain ⟨i, hi, hb1, hb2⟩ := ih j h0 (by omega)
      exact ⟨i, by omega, hb1, hb2⟩

theorem work_spec (v : VarPair) (a b : Nat)
    (h : ∀ i, a ≤ i → i < b → (v.cmpAt i).noRaise = true) :
    work v a b = .ok ((List.range' a (b - a)).all fun i => (v.cmpAt i).toPass) := by
  unfold work
  apply workGo_spec
  intro i hi
  rw [List.mem_range'_1] at hi
  exact h i hi.1 (by omega)

theorem compare_umlim_var_spec (v : VarPair) (ulen nprocs : Nat)
    (hk1 : 1 ≤ nprocs) (hkc : nprocs ≤ ulen)
    (h : ∀ i, i < ulen → (v.cmpAt i).noRaise = true) :
    compare_umlim_var v ulen nprocs = .ok (passAll v ulen) := by
  unfold compare_umlim_var
  rw [if_neg (by omega)]
  have hmono := partBoundary_mono ulen nprocs hkc hk1
  have hw : ∀ i ∈ List.range nprocs,
      work v (ulen / nprocs * i)
        (if i < nprocs - 1 then ulen / nprocs * (i + 1) else ulen)
      = .ok ((List.range'
          (partBoundary ulen nprocs (ulen / nprocs) i)
          (partBoundary ulen nprocs (ulen / nprocs) (i + 1) -
            partBoundary ulen nprocs (ulen / nprocs) i)).all
        fun j => (v.cmpAt j).toPass) := by
    intro i hi
    have hik := List.mem_range.mp hi
    have hstart : ulen / nprocs * i = partBoundary ulen nprocs (ulen / nprocs) i := by
      unfold partBoundary
      rw [if_pos hik]
    have hend : (if i < nprocs - 1 then ulen / nprocs * (i + 1) else ulen)
        = partBoundary ulen nprocs (ulen / nprocs) (i + 1) := by
      unfold partBoundary
      by_cases hc : i + 1 < nprocs
      · rw [if_pos hc, if_pos (by omega)]
      · rw [if_neg hc, if_neg (by omega)]
    rw [hstart, hend]
    apply work_spec
    intro j hj1 hj2
    apply h
    have hle := partBoundary_le_total ulen nprocs hkc (i + 1)
    omega
  rw [mapM_eq_ok_map _
    (fun i => (List.range'
      (partBoundary ulen nprocs (ulen / nprocs) i)
      (partBoundary ulen nprocs (ulen / nprocs) (i + 1) -
        partBoundary ulen nprocs (ulen / nprocs) i)).all
      fun j => (v.cmpAt j).toPass)
    (List.range nprocs) hw]
  simp only [Except.map]
  congr 1
  rw [all_map']
  rw [Bool.eq_iff_iff]
  constructor
  · intro H
    simp only [passAll, decide_eq_true_eq]
    intro j hj
    rw [List.all_eq_true] at H
    obtain ⟨i, hik, hb1, hb2⟩ := exists_bucket
      (partBoundary ulen nprocs (ulen / nprocs)) nprocs j
      (by rw [partBoundary_zero _ _ _ hk1]; omega)
      (by rw [partBoundary_last]; exact hj)
    have hall := H i (List.mem_range.mpr hik)
    simp only [id_eq] at hall
    rw [List.all_eq_true] at hall
    apply hall
    rw [List.mem_range'_1]
    have hm := hmono i hik
    exact ⟨hb1, by omega⟩
  · intro H
    rw [List.all_eq_true]
    intro i hi
    simp only [id_eq]
    rw [List.all_eq_true]
    intro j hj
    rw [List.mem_range'_1] at hj
    simp only [passAll, decide_eq_true_eq] at H
    apply H
    have hik := List.mem_range.mp hi
    have hle := partBoundary_le_total ulen nprocs hkc (i + 1)
    have hm := hmono i hik
    omega

theorem range'_all_eq_passAll (v : VarPair) (ulen : Nat) :
    ((List.range' 0 (ulen - 0)).all fun i => (v.cmpAt i).toPass) = passAll v ulen := by
  rw [Nat.sub_zero, ← List.range_eq_range']
  rw [Bool.eq_iff_iff]
  simp only [List.all_eq_true, List.mem_range, passAll, decide_eq_true_eq]

theorem growthSerial_spec (ulen nprocs : Nat) (hk1 : 1 ≤ nprocs) :
    ∀ varsU : List VarPair,
      (∀ v ∈ varsU, ∀ i, i < ulen → (v.cmpAt i).noRaise = true) →
      growthSerial varsU ulen nprocs =
        .ok (varsU.all fun v => passAll v ulen,
             (varsU.filter fun v => !(passAll v ulen)).map (·.name)) := by
  intro varsU
  induction varsU with
  | nil => intro _; rfl
  | cons v rest ih =>
    intro h
    have hv := h v (List.mem_cons_self v rest)
    have hs : (if nprocs ≤ ulen then compare_umlim_var v ulen nprocs
               else work v 0 ulen) = .ok (passAll v ulen) := by
      by_cases hc : nprocs ≤ ulen
      · rw [if_pos hc]
        exact compare_umlim_var_spec v ulen nprocs hk1 hc hv
      · rw [if_neg hc]
        rw [work_spec v 0 ulen fun i _ h2 => hv i h2]
        rw [range'_all_eq_passAll]
    rw [growthSerial, hs, ih fun w hw => h w (List.mem_cons_of_mem _ hw)]
    simp only [List.all_cons, List.filter_cons]
    by_cases hp : passAll v ulen = true
    · simp [hp]
    · have hp' : passAll v ulen = false := by simpa using hp
      simp [hp']

theorem parcomp_eq_passAll (ulen : Nat) (varsU : List VarPair)
    (h : ∀ v ∈ varsU, v.isText = false ∧ v.cmpWhole.noRaise = true ∧
      v.cmpWhole.toPass = passAll v ulen) :
    parcomp varsU = .ok
      ⟨varsU.all fun v => passAll v ulen,
       (varsU.filter fun v => !(passAll v ulen)).map (·.name), []⟩ := by
  rw [parcomp_ok_spec varsU fun v hv => Or.inr (h v hv).2.1]
  have h1 : (varsU.all fun v => v.isText || v.cmpWhole.toPass)
      = varsU.all fun v => passAll v ulen :=
    all_congr varsU _ _ fun v hv => by rw [(h v hv).1, (h v hv).2.2]; simp
  have h2 : (varsU.filter fun v => !v.isText && !v.cmpWhole.toPass)
      = varsU.filter fun v => !(passAll v ulen) :=
    List.filter_congr fun v hv => by rw [(h v hv).1, (h v hv).2.2]; simp
  have h3 : varsU.filter (·.isText) = [] :=
    List.filter_eq_nil_iff.mpr fun v hv => by simp [(h v hv).1]
  rw [h1, h2, h3]
  rfl

theorem growthStage_eq (varsU : List VarPair) (ulen nprocs nprocsg : Nat)
    (hn : 1 ≤ nprocs) (hg : 1 ≤ nprocsg)
    (h : ∀ v ∈ varsU, v.isText = false ∧ v.cmpWhole.noRaise = true ∧
      (∀ i, i < ulen → (v.cmpAt i).noRaise = true) ∧
      v.cmpWhole.toPass = passAll v ulen) :
    growthStage varsU ulen nprocs nprocsg = parcomp varsU := by
  unfold growthStage
  by_cases hcond : ulen < nprocs ∧ 4 < varsU.length
  · rw [if_pos hcond, if_neg (by omega)]
    exact growthA_eq varsU nprocsg (by omega) hg
  · rw [if_neg hcond]
    rw [growthSerial_spec ulen nprocs hn varsU fun v hv => (h v hv).2.2.1]
    rw [parcomp_eq_passAll ulen varsU
      fun v hv => ⟨(h v hv).1, (h v hv).2.1, (h v hv).2.2.2⟩]
    rfl

theorem compare_variables_indep (p : NcPairModel) (unlimdim : String) (ulen : Nat)
    (summary conterr : Bool) (P : Nat) (r : CmpResult)
    (h : ∀ v ∈ classifyU p.vars unlimdim, v.isText = false ∧
      v.cmpWhole.noRaise = true ∧
      (∀ i, i < ulen → (v.cmpAt i).noRaise = true) ∧
      v.cmpWhole.toPass = passAll v ulen)
    (hr : compare_variables p unlimdim ulen summary conterr P = .ok r) :
    compare_variables p unlimdim ulen summary conterr 1 = .ok r := by
  unfold compare_variables at hr ⊢
  cases e1 : customAssert (p.vars.length == p.vars2Names.length) conterr with
  | error e => rw [e1] at hr; simp at hr
  | ok n1 =>
    rw [e1] at hr
    cases e2 : customAssert (eqAsSets (p.vars.map (·.name)) p.vars2Names) conterr with
    | error e => rw [e2] at hr; simp at hr
    | ok n2 =>
      rw [e2] at hr
      by_cases hnp : fixedProcs (classifyF p.vars unlimdim).length P = 0
      · rw [if_pos hnp] at hr; simp at hr
      · rw [if_neg hnp] at hr
        have hPk : 1 ≤ fixedProcs (classifyF p.vars unlimdim).length P :=
          Nat.one_le_iff_ne_zero.mpr hnp
        have hflen : 1 ≤ (classifyF p.vars unlimdim).length ∧ 1 ≤ P := by
          unfold fixedProcs at hPk
          split at hPk <;> omega
        have hnp1 : ¬ fixedProcs (classifyF p.vars unlimdim).length 1 = 0 := by
          unfold fixedProcs
          split <;> omega
        rw [if_neg hnp1]
        have hfx := fixedStage_eq (classifyF p.vars unlimdim) P hflen.1 hflen.2
        have hfx1 := fixedStage_eq (classifyF p.vars unlimdim) 1 hflen.1 (by omega)
        cases hm : (fixedParts (classifyF p.vars unlimdim).length P).mapM
            (fun se => parcomp (sliceOf (classifyF p.vars unlimdim) se)) with
        | error e => rw [hm] at hr; simp at hr
        | ok rsF =>
          rw [hm] at hr
          have hpF : parcomp (classifyF p.vars unlimdim) = .ok (aggregate rsF) := by
            rw [← hfx, hm]
            rfl
          have h1m : ((fixedParts (classifyF p.vars unlimdim).length 1).mapM
              (fun se => parcomp (sliceOf (classifyF p.vars unlimdim) se))).map
              aggregate = .ok (aggregate rsF) := by
            rw [hfx1, hpF]
          cases h1x : (fixedParts (classifyF p.vars unlimdim).length 1).mapM
              (fun se => parcomp (sliceOf (classifyF p.vars unlimdim) se)) with
          | error e => rw [h1x] at h1m; simp [Except.map] at h1m
          | ok rs1 =>
            have hagg : aggregate rs1 = aggregate rsF := by
              rw [h1x] at h1m
              simp only [Except.map] at h1m
              injection h1m
            dsimp only [] at hr ⊢
            by_cases hu : unlimdim = "None"
            · rw [if_pos hu] at hr ⊢
              by_cases hsum : (summary || conterr) = true
              · rw [if_pos hsum] at hr; simp at hr
              · rw [if_neg hsum] at hr ⊢
                rw [hagg]
                exact hr
            · rw [if_neg hu] at hr ⊢
              have hgP := growthStage_eq (classifyU p.vars unlimdim) ulen
                (fixedProcs (classifyF p.vars unlimdim).length P) P hPk hflen.2 h
              have hg1 := growthStage_eq (classifyU p.vars unlimdim) ulen
                (fixedProcs (classifyF p.vars unlimdim).length 1) 1
                (Nat.one_le_iff_ne_zero.mpr hnp1) (by omega) h
              rw [hgP] at hr
              rw [hg1]
              cases hpu : parcomp (classifyU p.vars unlimdim) with
              | error e => rw [hpu] at hr; simp at hr
              | ok s2 =>
                rw [hpu] at hr
                rw [hagg]
                exact hr

theorem C8_counterexample :
    start_compare ⟨false, false, 4, false⟩ exPairC8
        = .ok ⟨true, [], ["t"], some 7⟩ ∧
      start_compare ⟨false, false, 1, false⟩ exPairC8 = .error .typeErr :=
  ⟨rfl, rfl⟩

theorem C8_parallelism (p : NcPairModel) (summary conterr ia : Bool)
    (P1 P2 : Nat) (r1 r2 : CmpResult)
    (h : ∀ v ∈ classifyU p.vars (resolveGrowth p.dims1).1,
      v.isText = false ∧ v.cmpWhole.noRaise = true ∧
      (∀ i, i < (resolveGrowth p.dims1).2 → (v.cmpAt i).noRaise = true) ∧
      v.cmpWhole.toPass = passAll v (resolveGrowth p.dims1).2)
    (h1 : start_compare ⟨summary, conterr, P1, ia⟩ p = .ok r1)
    (h2 : start_compare ⟨summary, conterr, P2, ia⟩ p = .ok r2) :
    r1 = r2 := by
  have c1 := compare_variables_indep p _ _ summary conterr P1 r1 h
    (start_compare_ok h1)
  have c2 := compare_variables_indep p _ _ summary conterr P2 r2 h
    (start_compare_ok h2)
  rw [c1] at c2
  injection c2

theorem C8_witness : (⟨true, [], [], some 2⟩ : CmpResult) = ⟨true, [], [], some 2⟩ :=
  C8_parallelism exPairC9b false true false 2 1 ⟨true, [], [], some 2⟩
    ⟨true, [], [], some 2⟩
    (by
      intro v hv
      have hcl : classifyU exPairC9b.vars (resolveGrowth exPairC9b.dims1).1
          = [exVarNum "u" ["time"]] := rfl
      rw [hcl, List.mem_singleton] at hv
      subst hv
      exact ⟨rfl, rfl, fun i _ => rfl, by decide⟩)
    rfl rfl

end Cmpnc
